import Mathlib

set_option maxRecDepth 4000

/-! ## Definitions: the shallow embedding of the extraction engine and aggregator -/

/-- The single-quote character (code point 39), written via `Char.ofNat`. -/
def singleQuote : Char := Char.ofNat 39

/-- One-character string holding the single quote. -/
def singleQuoteStr : String := String.mk [singleQuote]

/-- Models JavaScript truthy-or on strings: `a || b` where the empty string is falsy. -/
def jsOr (a b : String) : String := if a = "" then b else a

/-- Drop leading and trailing whitespace from a character list
(models `String.prototype.trim`). -/
def trimChars (l : List Char) : List Char :=
  ((l.dropWhile Char.isWhitespace).reverse.dropWhile Char.isWhitespace).reverse

/-- Models `String.prototype.trim`. -/
def jsTrim (s : String) : String := String.mk (trimChars s.data)

/-- Models `String.prototype.startsWith`. -/
def jsStartsWith (s pre : String) : Bool := pre.data.isPrefixOf s.data

/-- Models `String.prototype.endsWith`. -/
def jsEndsWith (s suf : String) : Bool := suf.data.isSuffixOf s.data

/-- Whether `needle` occurs as a contiguous run inside the list. -/
def containsSub (needle : List Char) : List Char → Bool
  | [] => needle.isEmpty
  | c :: rest => needle.isPrefixOf (c :: rest) || containsSub needle rest

/-- Models `String.prototype.includes`. -/
def jsIncludes (s sub : String) : Bool := containsSub sub.data s.data

/-- The prefix of a character list strictly before the first occurrence of
`--` (models `value.split('--')[0]` in `LuaParser.inferTypeFromValue`). -/
def takeUntilDashDash : List Char → List Char
  | [] => []
  | [c] => [c]
  | c :: d :: rest =>
    if c = '-' ∧ d = '-' then []
    else c :: takeUntilDashDash (d :: rest)

/-- Source: `value.split('--')[0].trim()` from `LuaParser.inferTypeFromValue`
(part_003, line 381). -/
def stripComment (value : String) : String :=
  jsTrim (String.mk (takeUntilDashDash value.data))

/-- The anchored numeric pattern `/^-?\d+\.?\d*$/` of
`LuaParser.inferTypeFromValue` (part_003, line 400): optional sign, one or
more digits, optional dot, zero or more digits. -/
def isNumericJS (s : String) : Bool :=
  let l := match s.data with
    | c :: rest => if c = '-' then rest else c :: rest
    | [] => []
  let ds := l.takeWhile Char.isDigit
  let rest := l.dropWhile Char.isDigit
  if ds.isEmpty then false
  else match rest with
    | [] => true
    | c :: r2 => if c = '.' then r2.all Char.isDigit else false

/-- Source: `LuaParser.inferTypeFromValue` (src/unnamed/part_003, lines 379-411):
strip an inline `--` comment, trim, then classify the remaining text in a
fixed priority order; the fallback is `"any"`. -/
def inferTypeFromValue (value : String) : String :=
  let v := stripComment value
  if v = "true" ∨ v = "false" then "boolean"
  else if v = "nil" then "nil"
  else if (jsStartsWith v singleQuoteStr ∧ jsEndsWith v singleQuoteStr)
       ∨ (jsStartsWith v "\"" ∧ jsEndsWith v "\"") then "string"
  else if isNumericJS v then "number"
  else if jsStartsWith v "\x7b" then "table"
  else "any"

/-- Source: `\w` of JavaScript regexes: ASCII letters, digits, underscore. -/
def isWordChar (c : Char) : Bool := c.isAlphanum || c = '_'

/-- A quote character, single or double (the `['"]` class). -/
def isQuoteChar (c : Char) : Bool := c == singleQuote || c == '"'

/-- Consume an exact literal. -/
def eatLit : List Char → List Char → Option (List Char)
  | [], s => some s
  | _ :: _, [] => none
  | l :: ls, c :: cs => if c = l then eatLit ls cs else none

/-- Consume `\s*`. -/
def eatWs0 (s : List Char) : List Char := s.dropWhile Char.isWhitespace

/-- Consume `\s+`. -/
def eatWs1 : List Char → Option (List Char)
  | [] => none
  | c :: cs => if c.isWhitespace then some (eatWs0 cs) else none

/-- Consume one given character. -/
def eatChar (ch : Char) : List Char → Option (List Char)
  | [] => none
  | c :: cs => if c = ch then some cs else none

/-- Consume `\w+`, returning the consumed run. -/
def eatWord1 (s : List Char) : Option (List Char × List Char) :=
  let w := s.takeWhile isWordChar
  if w.isEmpty then none else some (w, s.dropWhile isWordChar)

/-- Consume `[^\s]+`, returning the consumed run. -/
def eatNonWs1 (s : List Char) : Option (List Char × List Char) :=
  let w := s.takeWhile (fun c => !c.isWhitespace)
  if w.isEmpty then none else some (w, s.dropWhile (fun c => !c.isWhitespace))

/-- Consume one quote character (`['"]`). -/
def eatQuote : List Char → Option (List Char)
  | [] => none
  | c :: cs => if isQuoteChar c then some cs else none

/-- Consume `[^'"]+`, returning the consumed run. -/
def eatNonQuote1 (s : List Char) : Option (List Char × List Char) :=
  let w := s.takeWhile (fun c => !isQuoteChar c)
  if w.isEmpty then none else some (w, s.dropWhile (fun c => !isQuoteChar c))

/-- Try a matcher at every start position, leftmost match first
(JavaScript regex search). -/
def searchPos {α : Type} (tryAt : List Char → Option α) : List Char → Option α
  | [] => tryAt []
  | c :: rest => match tryAt (c :: rest) with
    | some r => some r
    | none => searchPos tryAt rest

/-- Source: `/@param\s+(\w+)\s+([^\s]+)(?:\s+(.+))?/` tried at one position
(part_003, line 621); the absent description group yields `""` as in
`paramMatch[3] || ''`. -/
def tryParamTag (s : List Char) : Option (String × String × String) := do
  let s ← eatLit "@param".data s
  let s ← eatWs1 s
  let (nm, s) ← eatWord1 s
  let s ← eatWs1 s
  let (ty, s) ← eatNonWs1 s
  let d := s.dropWhile Char.isWhitespace
  pure (String.mk nm, String.mk ty, String.mk d)

/-- Source: `/@return\s+([^\s]+)(?:\s+(.+))?/` tried at one position
(part_003, line 631). -/
def tryReturnTag (s : List Char) : Option (String × String) := do
  let s ← eatLit "@return".data s
  let s ← eatWs1 s
  let (ty, s) ← eatNonWs1 s
  let d := s.dropWhile Char.isWhitespace
  pure (String.mk ty, String.mk d)

/-- A parsed `@param` documentation entry. -/
structure DocParam where
  name : String
  type : String
  description : String
deriving DecidableEq, Repr

/-- A parsed `@return` documentation entry. -/
structure DocReturn where
  type : String
  description : String
deriving DecidableEq, Repr

/-- The documentation object built by `extractDocumentation`. -/
structure Docs where
  description : String
  params : List DocParam
  returns : List DocReturn
  rawComments : List String
  deprecated : Option String
deriving DecidableEq, Repr

/-- Accumulator of the tag-parsing loop of `extractDocumentation`
(part_003, lines 614-647). -/
structure TagScan where
  params : List DocParam
  returns : List DocReturn
  deprecated : Option String
  descriptionLines : List String
  foundTag : Bool
deriving DecidableEq, Repr

/-- One iteration of the tag-parsing loop of `extractDocumentation`
(part_003, lines 618-647): `@param`/`@return`/`@deprecated` lines set
`foundTag` (even when their regex then fails to match); description lines are
kept only before the first tag. -/
def parseTagLine (st : TagScan) (line : String) : TagScan :=
  if jsStartsWith line "@param" then
    { st with
      foundTag := true
      params := (match searchPos tryParamTag line.data with
        | some (n, ty, d) => st.params ++ [⟨n, ty, d⟩]
        | none => st.params) }
  else if jsStartsWith line "@return" then
    { st with
      foundTag := true
      returns := (match searchPos tryReturnTag line.data with
        | some (ty, d) => st.returns ++ [⟨ty, d⟩]
        | none => st.returns) }
  else if jsStartsWith line "@deprecated" then
    { st with
      foundTag := true
      deprecated := some (jsTrim (line.drop 11)) }
  else if st.foundTag = false ∧ jsTrim line ≠ "" then
    { st with descriptionLines := st.descriptionLines ++ [line] }
  else st

/-- The backward collection loop of the canonical `extractDocumentation`
(src/unnamed/part_003, lines 593-612), processing index `i` downward: stop at
a blank line, collect `---` lines (marker stripped, trimmed), collect `--`
lines unconditionally, stop at anything else.  The result is in original
top-to-bottom order (the source uses `unshift`). -/
def collectCommentLines (lines : List String) : Nat → List String
  | 0 =>
    let line := jsTrim (lines.getD 0 "")
    if line = "" then []
    else if jsStartsWith line "---" then [jsTrim (line.drop 3)]
    else if jsStartsWith line "--" then [jsTrim (line.drop 2)]
    else []
  | i + 1 =>
    let line := jsTrim (lines.getD (i + 1) "")
    if line = "" then []
    else if jsStartsWith line "---" then
      collectCommentLines lines i ++ [jsTrim (line.drop 3)]
    else if jsStartsWith line "--" then
      collectCommentLines lines i ++ [jsTrim (line.drop 2)]
    else []

/-- The backward pre-scan for a `---` line (part_003, lines 579-591 and
part_002, lines 122-134, identical in both revisions), processing index `j`
downward: `---` found stops with true; blank or `--` lines continue; anything
else stops with false. -/
def hasThreeDashAux (lines : List String) : Nat → Bool
  | 0 =>
    let l := jsTrim (lines.getD 0 "")
    jsStartsWith l "---"
  | j + 1 =>
    let l := jsTrim (lines.getD (j + 1) "")
    if jsStartsWith l "---" then true
    else if l = "" ∨ jsStartsWith l "--" then hasThreeDashAux lines j
    else false

/-- Source: `hasThreeDashComments` computed from `startIndex - 1` downward. -/
def hasThreeDashComments (lines : List String) (startIndex : Nat) : Bool :=
  match startIndex with
  | 0 => false
  | j + 1 => hasThreeDashAux lines j

/-- The backward collection of the canonical `extractDocumentation`, started
at `startIndex - 1` (the JavaScript loop does not run when `startIndex` is
0). -/
def rawCommentsOf (lines : List String) : Nat → List String
  | 0 => []
  | i + 1 => collectCommentLines lines i

/-- Source: `LuaParser.extractDocumentation` of the canonical revision
(src/unnamed/part_003, lines 567-653).  The `hasThreeDashComments` flag is
computed but never used afterwards, exactly as in that revision of the
source. -/
def extractDocumentation (lines : List String) (startIndex : Nat) : Docs :=
  let _hasThreeDashComments := hasThreeDashComments lines startIndex
  let commentLines := rawCommentsOf lines startIndex
  let st := commentLines.foldl parseTagLine ⟨[], [], none, [], false⟩
  { description := jsTrim (String.intercalate "\n" st.descriptionLines)
    params := st.params
    returns := st.returns
    rawComments := commentLines
    deprecated := st.deprecated }

/-- The backward collection loop of the earlier revision's
`extractDocumentation` (src/unnamed/part_002, lines 136-156): `---` lines
always collected; `--` lines collected only when the pre-scan found a `---`
line (`gate`); blank lines are skipped without terminating the block;
anything else stops. -/
def collectCommentLinesV1 (lines : List String) (gate : Bool) : Nat → List String
  | 0 =>
    let line := jsTrim (lines.getD 0 "")
    if jsStartsWith line "---" then [jsTrim (line.drop 3)]
    else if jsStartsWith line "--" then
      (if gate then [jsTrim (line.drop 2)] else [])
    else []
  | i + 1 =>
    let line := jsTrim (lines.getD (i + 1) "")
    if jsStartsWith line "---" then
      collectCommentLinesV1 lines gate i ++ [jsTrim (line.drop 3)]
    else if jsStartsWith line "--" then
      collectCommentLinesV1 lines gate i
        ++ (if gate then [jsTrim (line.drop 2)] else [])
    else if line = "" then collectCommentLinesV1 lines gate i
    else []

/-- The `commentLines` collected by the part_002 revision of
`extractDocumentation` for a given anchor: the pre-scan feeds the gate of the
collection loop. -/
def rawCommentsV1 (lines : List String) (startIndex : Nat) : List String :=
  match startIndex with
  | 0 => []
  | i + 1 => collectCommentLinesV1 lines (hasThreeDashComments lines startIndex) i

/-- Split a character list at every comma (models `paramsString.split(',')`,
which keeps empty segments). -/
def splitOnComma : List Char → List (List Char)
  | [] => [[]]
  | c :: rest =>
    if c = ',' then [] :: splitOnComma rest
    else match splitOnComma rest with
      | h :: t => (c :: h) :: t
      | [] => [[c]]

/-- A parameter as produced by `parseFunctionSignature`: `{name, type}` with
the permissive type, to be overridden by `@param` documentation later. -/
structure FuncParam where
  name : String
  type : String
deriving DecidableEq, Repr

/-- The `{parameters, returnTypes}` object produced by
`parseFunctionSignature` and `parseInlineFunction`. -/
structure FuncDef where
  parameters : List FuncParam
  returnTypes : List String
deriving DecidableEq, Repr

/-- Source: `LuaParser.parseFunctionSignature` (part_003, lines 712-729): split the
parameter text on commas, trim each piece, keep the non-empty ones with the
permissive type. -/
def parseFunctionSignature (paramsString : String) : FuncDef :=
  let parameters :=
    if jsTrim paramsString ≠ "" then
      ((splitOnComma paramsString.data).map (fun p => jsTrim (String.mk p))).filterMap
        (fun p => if p ≠ "" then some (⟨p, "any"⟩ : FuncParam) else none)
    else []
  ⟨parameters, []⟩

/-- Source: `/exports\s*\(\s*['"]([^'"]+)['"]\s*,\s*(\w+)\s*\)/` tried at one
position (part_003, line 513): an export call with a bare reference second
argument; yields the export name and the reference. -/
def tryExportRef (s : List Char) : Option (String × String) := do
  let s ← eatLit "exports".data s
  let s := eatWs0 s
  let s ← eatChar '(' s
  let s := eatWs0 s
  let s ← eatQuote s
  let (nm, s) ← eatNonQuote1 s
  let s ← eatQuote s
  let s := eatWs0 s
  let s ← eatChar ',' s
  let s := eatWs0 s
  let (ref, s) ← eatWord1 s
  let s := eatWs0 s
  let _ ← eatChar ')' s
  pure (String.mk nm, String.mk ref)

/-- Source: `/exports\s*\(\s*['"]([^'"]+)['"]\s*,\s*function/` tried at one position
(part_003, line 520): an export call whose second argument starts the keyword
`function` on the same line; yields the export name. -/
def tryExportInline (s : List Char) : Option String := do
  let s ← eatLit "exports".data s
  let s := eatWs0 s
  let s ← eatChar '(' s
  let s := eatWs0 s
  let s ← eatQuote s
  let (nm, s) ← eatNonQuote1 s
  let s ← eatQuote s
  let s := eatWs0 s
  let s ← eatChar ',' s
  let s := eatWs0 s
  let _ ← eatLit "function".data s
  pure (String.mk nm)

/-- Source: `/function\s*\(([^)]*)\)/` tried at one position (part_003, line 698):
an anonymous function header; yields the parameter text. -/
def tryFuncHeader (s : List Char) : Option String := do
  let s ← eatLit "function".data s
  let s := eatWs0 s
  let s ← eatChar '(' s
  let ps := s.takeWhile (fun c => c != ')')
  let s := s.dropWhile (fun c => c != ')')
  let _ ← eatChar ')' s
  pure (String.mk ps)

/-- Source: `/(?:local\s+)?function\s+(\w+)\s*\(([^)]*)\)/` tried at one position
(part_003, line 673): a named function definition header, with an optional
`local` prefix tried first as the regex engine does; yields the name and the
parameter text. -/
def tryFuncDef (s : List Char) : Option (String × String) :=
  let core : List Char → Option (String × String) := fun s => do
    let s ← eatLit "function".data s
    let s ← eatWs1 s
    let (nm, s) ← eatWord1 s
    let s := eatWs0 s
    let s ← eatChar '(' s
    let ps := s.takeWhile (fun c => c != ')')
    let s := s.dropWhile (fun c => c != ')')
    let _ ← eatChar ')' s
    pure (String.mk nm, String.mk ps)
  match (do
      let s2 ← eatLit "local".data s
      let s2 ← eatWs1 s2
      core s2) with
  | some r => some r
  | none => core s

/-- Source: `LuaParser.findFunctionDefinition`'s per-line test (part_003, lines
665-680): skip commented-out lines, otherwise search the line for a named
function header and compare the name. -/
def fdHit (lines : List String) (functionName : String) (i : Nat) :
    Option (FuncDef × Nat) :=
  let line := jsTrim (lines.getD i "")
  if jsStartsWith line "--" then none
  else match searchPos tryFuncDef line.data with
    | some (nm, ps) =>
      if nm = functionName then some (parseFunctionSignature ps, i) else none
    | none => none

/-- The backward loop of `findFunctionDefinition` (part_003, line 664),
walking index `i` down to the lower bound `lb`. -/
def findFDAux (lines : List String) (functionName : String) (lb : Nat) :
    Nat → Option (FuncDef × Nat)
  | 0 => if lb = 0 then fdHit lines functionName 0 else none
  | i + 1 =>
    if i + 1 < lb then none
    else match fdHit lines functionName (i + 1) with
      | some r => some r
      | none => findFDAux lines functionName lb i

/-- Source: `LuaParser.findFunctionDefinition` (src/unnamed/part_003, lines 662-684):
search upward from the export line, at most 500 lines, for a non-commented
named function header matching `functionName`; return its parsed signature
and line index, or nothing. -/
def findFunctionDefinition (lines : List String) (exportLineIndex : Nat)
    (functionName : String) : Option (FuncDef × Nat) :=
  match exportLineIndex with
  | 0 => none
  | i + 1 => findFDAux lines functionName (i + 1 - 500) i

/-- The bounded forward loop of `parseInlineFunction` (part_003, lines
694-702): append up to five trimmed lines and stop at the first one that
completes a `function (...)` header. -/
def parseInlineAux (lines : List String) (lineIndex : Nat) :
    Nat → Nat → String → FuncDef
  | 0, _, _ => ⟨[], []⟩
  | fuel + 1, i, combined =>
    if lineIndex + i < lines.length then
      let c := combined ++ " " ++ jsTrim (lines.getD (lineIndex + i) "")
      match searchPos tryFuncHeader c.data with
      | some ps => parseFunctionSignature ps
      | none => parseInlineAux lines lineIndex fuel (i + 1) c
    else ⟨[], []⟩

/-- Source: `LuaParser.parseInlineFunction` (src/unnamed/part_003, lines 693-705). -/
def parseInlineFunction (lines : List String) (lineIndex : Nat) : FuncDef :=
  parseInlineAux lines lineIndex 5 0 ""

/-- The declaration record returned by `parseExport` (part_003, lines
549-557). -/
structure ExportRecord where
  name : String
  context : String
  documentation : Docs
  parameters : List FuncParam
  returnTypes : List String
  description : String
  filePath : String
deriving DecidableEq, Repr

/-- Source: `LuaParser.parseExport` of the state-aware revision
(src/unnamed/part_003, lines 506-558): an export is inline iff the export
call line itself contains `function(` or `function (`; the bare-reference
regex is tried first, then the inline-name regex; a bare reference resolves
through `findFunctionDefinition`, an inline literal through
`parseInlineFunction`; documentation is extracted at the located definition
line (bare reference found) or at the export call line itself. -/
def parseExport (lines : List String) (lineIndex : Nat) (context : String) :
    Option ExportRecord :=
  let exportLine := lines.getD lineIndex ""
  let isInline := jsIncludes exportLine "function(" || jsIncludes exportLine "function ("
  let nameRef : Option (String × Option String) :=
    match searchPos tryExportRef exportLine.data with
    | some (n, r) => some (n, some r)
    | none =>
      if isInline then
        match searchPos tryExportInline exportLine.data with
        | some n => some (n, none)
        | none => none
      else none
  match nameRef with
  | none => none
  | some (exportName, functionRef) =>
    let fdIdx : Option FuncDef × Nat :=
      if isInline = false then
        match findFunctionDefinition lines lineIndex (functionRef.getD "") with
        | some (fd, idx) => (some fd, idx)
        | none => (none, lineIndex)
      else (some (parseInlineFunction lines lineIndex), lineIndex)
    let docs := extractDocumentation lines fdIdx.2
    some { name := exportName
           context := context
           documentation := docs
           parameters := ((fdIdx.1.map FuncDef.parameters).getD [])
           returnTypes := ((fdIdx.1.map FuncDef.returnTypes).getD [])
           description := jsOr docs.description ""
           filePath := lines.getD lineIndex "" }

/-- JavaScript `Map.prototype.get`. -/
def mapGet {α : Type} : List (String × α) → String → Option α
  | [], _ => none
  | (k0, v0) :: rest, k => if k0 = k then some v0 else mapGet rest k

/-- JavaScript `Map.prototype.set`. -/
def mapSet {α : Type} : List (String × α) → String → α → List (String × α)
  | [], k, v => [(k, v)]
  | (k0, v0) :: rest, k, v =>
    if k0 = k then (k, v) :: rest else (k0, v0) :: mapSet rest k v

/-- The last `@param` tag with a given name, mirroring the fact that the
`docMap` built by `mergeParameters` keeps the last `Map.set` for a repeated
name. -/
def lastDocParam : List DocParam → String → Option DocParam
  | [], _ => none
  | d :: rest, n =>
    match lastDocParam rest n with
    | some r => some r
    | none => if d.name = n then some d else none

/-- The merged entry `mergeParameters` builds for one signature parameter
(part_001, lines 173-181): prefer the documented type and description,
falling back through the JavaScript `||` chain. -/
def mergedParamOf (docMap : List (String × DocParam)) (fp : FuncParam) : DocParam :=
  match mapGet docMap fp.name with
  | some doc => ⟨fp.name, jsOr doc.type (jsOr fp.type "any"), jsOr doc.description ""⟩
  | none => ⟨fp.name, jsOr fp.type "any", ""⟩

/-- Source: `TypeGenerator.mergeParameters` (src/unnamed/part_001, lines 163-195):
build a map of documented parameters keyed by name (last write wins), merge
it over the signature parameters in order, then append every documented
parameter whose name matches no signature parameter. -/
def mergeParameters (funcParams : List FuncParam) (docParams : List DocParam) :
    List DocParam :=
  let docMap := docParams.foldl (fun m d => mapSet m d.name d) []
  let merged := funcParams.map (mergedParamOf docMap)
  merged ++ docParams.filter (fun d => !(funcParams.any (fun p => p.name == d.name)))

/-- One GlobalState observation as produced by `parseGlobalStates`
(part_003, lines 361-367). -/
structure GObs where
  name : String
  type : String
  context : String
  filePath : String
  value : String
deriving DecidableEq, Repr

/-- One merged GlobalState entry as stored by `addGlobalStates`
(README.md, lines 196-202). -/
structure GEntry where
  name : String
  type : String
  context : String
  resources : List String
  value : String
deriving DecidableEq, Repr

/-- The two mutations `addGlobalStates` performs on an existing entry
(src/README.md, lines 184-193): add the resource if new, then widen the type
to `"any"` when the types differ. -/
def gUpdate (existing : GEntry) (state : GObs) (resourceName : String) : GEntry :=
  let e1 := { existing with
    resources := if existing.resources.contains resourceName then existing.resources
      else existing.resources ++ [resourceName] }
  if e1.type = state.type then e1 else { e1 with type := "any" }

/-- Source: `GlobalStateGenerator.addGlobalStates`, one state of the loop. -/
def addGlobalState (m : List (String × GEntry)) (state : GObs)
    (resourceName : String) : List (String × GEntry) :=
  match mapGet m state.name with
  | some existing => mapSet m state.name (gUpdate existing state resourceName)
  | none =>
    mapSet m state.name
      ⟨state.name, state.type, state.context, [resourceName], state.value⟩

/-- Source: `GlobalStateGenerator.addGlobalStates`: fold the observation array of one
file into the map. -/
def addGlobalStates (m : List (String × GEntry)) (states : List GObs)
    (resourceName : String) : List (String × GEntry) :=
  states.foldl (fun m s => addGlobalState m s resourceName) m

/-- Feeding a sequence of per-file observation arrays (each with its owning
resource name) into a fresh `GlobalStateGenerator`, one `addGlobalStates`
call per file, as `index.js` does. -/
def aggregateGlobalStates (calls : List (List GObs × String)) :
    List (String × GEntry) :=
  calls.foldl (fun m c => addGlobalStates m c.1 c.2) []

/-- One Player/LocalPlayer state observation as produced by
`parsePlayerStates` (part_003, lines 443-470): additionally carries the
replicated flag. -/
structure PObs where
  name : String
  type : String
  context : String
  filePath : String
  value : String
  replicated : Bool
deriving DecidableEq, Repr

/-- One merged Player/LocalPlayer state entry as stored by
`addPlayerStates` / `addLocalPlayerStates` (README.md, lines 212-265). -/
structure PEntry where
  name : String
  type : String
  context : String
  resources : List String
  value : String
  replicated : Bool
deriving DecidableEq, Repr

/-- The two mutations `addPlayerStates` and `addLocalPlayerStates`
(src/README.md, lines 212-235 and 242-265, identical bodies) perform on an
existing entry; the replicated flag is stored from the first observation
only. -/
def pUpdate (existing : PEntry) (state : PObs) (resourceName : String) : PEntry :=
  let e1 := { existing with
    resources := if existing.resources.contains resourceName then existing.resources
      else existing.resources ++ [resourceName] }
  if e1.type = state.type then e1 else { e1 with type := "any" }

/-- Source: `GlobalStateGenerator.addPlayerStates` / `addLocalPlayerStates`, one
state of the (identical) loop. -/
def addPlayerState (m : List (String × PEntry)) (state : PObs)
    (resourceName : String) : List (String × PEntry) :=
  match mapGet m state.name with
  | some existing => mapSet m state.name (pUpdate existing state resourceName)
  | none =>
    mapSet m state.name
      ⟨state.name, state.type, state.context, [resourceName], state.value,
        state.replicated⟩

/-- Source: `GlobalStateGenerator.addPlayerStates` (README.md, lines 212-235). -/
def addPlayerStates (m : List (String × PEntry)) (states : List PObs)
    (resourceName : String) : List (String × PEntry) :=
  states.foldl (fun m s => addPlayerState m s resourceName) m

/-- Source: `GlobalStateGenerator.addLocalPlayerStates` (README.md, lines 242-265);
its body is identical to `addPlayerStates`, acting on the LocalPlayer map. -/
def addLocalPlayerStates (m : List (String × PEntry)) (states : List PObs)
    (resourceName : String) : List (String × PEntry) :=
  states.foldl (fun m s => addPlayerState m s resourceName) m

/-- Per-file aggregation of Player-state observation arrays. -/
def aggregatePlayerStates (calls : List (List PObs × String)) :
    List (String × PEntry) :=
  calls.foldl (fun m c => addPlayerStates m c.1 c.2) []

/-- Per-file aggregation of LocalPlayer-state observation arrays. -/
def aggregateLocalPlayerStates (calls : List (List PObs × String)) :
    List (String × PEntry) :=
  calls.foldl (fun m c => addLocalPlayerStates m c.1 c.2) []

/-- An entry of the merged per-entity view `allStates` built inside
`GlobalStateGenerator.generateStateFile` (src/README.md, lines 311-357): the
spread `{...state}` keeps every `PEntry` field and adds `contexts` and
`replication`. -/
structure MEntry where
  name : String
  type : String
  context : String
  resources : List String
  value : String
  replicated : Bool
  contexts : List String
  replication : String
deriving DecidableEq, Repr

/-- A server-side (`Player`) entry as first placed into `allStates`
(README.md, lines 320-326). -/
def serverInitEntry (st : PEntry) : MEntry :=
  { name := st.name, type := st.type, context := st.context
    resources := st.resources, value := st.value, replicated := st.replicated
    contexts := ["server"]
    replication := if st.replicated then "to client" else "server only" }

/-- A client-side (`LocalPlayer`) entry added when no server-side entry of
that name exists (README.md, lines 349-356). -/
def clientNewEntry (st : PEntry) : MEntry :=
  { name := st.name, type := st.type, context := st.context
    resources := st.resources, value := st.value, replicated := st.replicated
    contexts := ["client"]
    replication := if st.replicated then "to server" else "client only" }

/-- The update `generateStateFile` performs for one LocalPlayer entry
(README.md, lines 329-357): on an existing (server-side) entry push the
client context, upgrade the replication to bidirectional only when the
client observation is replicated, and widen the type on disagreement;
otherwise insert a fresh client-side entry. -/
def clientUpdateVal (mo : Option MEntry) (st : PEntry) : MEntry :=
  match mo with
  | some existing =>
    let e1 := { existing with contexts := existing.contexts ++ ["client"] }
    let e2 := if st.replicated then
        (if e1.replication = "server only" then { e1 with replication := "bidirectional" }
         else if e1.replication = "to client" then { e1 with replication := "bidirectional" }
         else e1)
      else e1
    if e2.type = st.type then e2 else { e2 with type := "any" }
  | none => clientNewEntry st

/-- One iteration of the LocalPlayer loop of `generateStateFile`; mutating
the object returned by `Map.get` in place is modelled by `mapSet` at the same
key. -/
def clientMergeStep (acc : List (String × MEntry)) (p : String × PEntry) :
    List (String × MEntry) :=
  mapSet acc p.1 (clientUpdateVal (mapGet acc p.1) p.2)

/-- The merged `allStates` view built inside
`GlobalStateGenerator.generateStateFile` (src/README.md, lines 311-357):
seed with every Player-state entry marked server-side, then fold the
LocalPlayer entries over it. -/
def mergeStateBags (playerStates localPlayerStates : List (String × PEntry)) :
    List (String × MEntry) :=
  localPlayerStates.foldl clientMergeStep
    (playerStates.map (fun kv => (kv.1, serverInitEntry kv.2)))

/-- The per-collision type evolution of the aggregator
(`if (existing.type !== state.type) existing.type = 'any'`). -/
def widen (a b : String) : String := if a = b then a else "any"

/-- The flattened stream of (observation, owning resource) pairs fed to the
aggregator by a sequence of per-file `addGlobalStates` calls. -/
def flatGObs (calls : List (List GObs × String)) : List (GObs × String) :=
  (calls.map (fun c => c.1.map (fun o => (o, c.2)))).flatten

/-- The aggregator folded over the flattened observation stream. -/
def aggFlatG (flat : List (GObs × String)) : List (String × GEntry) :=
  flat.foldl (fun m p => addGlobalState m p.1 p.2) []

/-- The flattened stream of (observation, owning resource) pairs for the
player-state aggregators. -/
def flatPObs (calls : List (List PObs × String)) : List (PObs × String) :=
  (calls.map (fun c => c.1.map (fun o => (o, c.2)))).flatten

/-- The player-state aggregator folded over the flattened stream. -/
def aggFlatP (flat : List (PObs × String)) : List (String × PEntry) :=
  flat.foldl (fun m p => addPlayerState m p.1 p.2) []

/-- All GlobalState observations of a given name across a sequence of
per-file calls, in arrival order. -/
def obsOfGName (n : String) (calls : List (List GObs × String)) : List GObs :=
  ((calls.map Prod.fst).flatten).filter (fun o => o.name == n)

/-- All player-state observations of a given name across a sequence of
per-file calls, in arrival order. -/
def obsOfPName (n : String) (calls : List (List PObs × String)) : List PObs :=
  ((calls.map Prod.fst).flatten).filter (fun o => o.name == n)

/-! ## Theorems settling the claims -/

example : inferTypeFromValue "true" = "boolean" := by decide
example : inferTypeFromValue "\"hi\"" = "string" := by decide
example : inferTypeFromValue "42" = "number" := by decide
example : inferTypeFromValue "{}" = "table" := by decide
example : inferTypeFromValue "nil" = "nil" := by decide
example : inferTypeFromValue "someCall()" = "any" := by decide
example : inferTypeFromValue "\"a--b\"" = "any" := by decide
example : inferTypeFromValue "\"--\"" = "string" := by decide
example : inferTypeFromValue "12.5 -- speed" = "number" := by decide

/-- Claim C5: Value-type inference follows the fixed priority table: after
stripping everything from the inline `--` marker and trimming,
`inferTypeFromValue` returns `"boolean"` for literal `true`/`false`, else
`"nil"` for literal `nil`, else `"string"` for a matching outer quote pair,
else `"number"` for the signed-decimal pattern, else `"table"` for a leading
open brace, else `"any"`; and the concrete table `"true"` → boolean,
`'"hi"'` → string, `"42"` → number, `"{}"` → table, `"nil"` → nil,
`"someCall()"` → any holds.  The embedding is a total function, so no input
can make it throw. -/
theorem inferTypeFromValue_priority :
    (∀ value : String,
      ((stripComment value = "true" ∨ stripComment value = "false") →
        inferTypeFromValue value = "boolean")
      ∧ (¬ (stripComment value = "true" ∨ stripComment value = "false") →
          stripComment value = "nil" → inferTypeFromValue value = "nil")
      ∧ (¬ (stripComment value = "true" ∨ stripComment value = "false") →
          stripComment value ≠ "nil" →
          ((jsStartsWith (stripComment value) singleQuoteStr
              ∧ jsEndsWith (stripComment value) singleQuoteStr)
            ∨ (jsStartsWith (stripComment value) "\""
              ∧ jsEndsWith (stripComment value) "\"")) →
          inferTypeFromValue value = "string")
      ∧ (¬ (stripComment value = "true" ∨ stripComment value = "false") →
          stripComment value ≠ "nil" →
          ¬ ((jsStartsWith (stripComment value) singleQuoteStr
              ∧ jsEndsWith (stripComment value) singleQuoteStr)
            ∨ (jsStartsWith (stripComment value) "\""
              ∧ jsEndsWith (stripComment value) "\"")) →
          isNumericJS (stripComment value) = true →
          inferTypeFromValue value = "number")
      ∧ (¬ (stripComment value = "true" ∨ stripComment value = "false") →
          stripComment value ≠ "nil" →
          ¬ ((jsStartsWith (stripComment value) singleQuoteStr
              ∧ jsEndsWith (stripComment value) singleQuoteStr)
            ∨ (jsStartsWith (stripComment value) "\""
              ∧ jsEndsWith (stripComment value) "\"")) →
          isNumericJS (stripComment value) = false →
          jsStartsWith (stripComment value) "\x7b" = true →
          inferTypeFromValue value = "table")
      ∧ (¬ (stripComment value = "true" ∨ stripComment value = "false") →
          stripComment value ≠ "nil" →
          ¬ ((jsStartsWith (stripComment value) singleQuoteStr
              ∧ jsEndsWith (stripComment value) singleQuoteStr)
            ∨ (jsStartsWith (stripComment value) "\""
              ∧ jsEndsWith (stripComment value) "\"")) →
          isNumericJS (stripComment value) = false →
          jsStartsWith (stripComment value) "\x7b" = false →
          inferTypeFromValue value = "any"))
    ∧ (inferTypeFromValue "true" = "boolean"
      ∧ inferTypeFromValue "\"hi\"" = "string"
      ∧ inferTypeFromValue "42" = "number"
      ∧ inferTypeFromValue "{}" = "table"
      ∧ inferTypeFromValue "nil" = "nil"
      ∧ inferTypeFromValue "someCall()" = "any") := by
  constructor
  · intro value
    refine ⟨?_, ?_, ?_, ?_, ?_, ?_⟩
    · intro h1
      simp only [inferTypeFromValue]
      rw [if_pos h1]
    · intro h1 h2
      simp only [inferTypeFromValue]
      rw [if_neg h1, if_pos h2]
    · intro h1 h2 h3
      simp only [inferTypeFromValue]
      rw [if_neg h1, if_neg h2, if_pos h3]
    · intro h1 h2 h3 h4
      simp only [inferTypeFromValue]
      rw [if_neg h1, if_neg h2, if_neg h3, if_pos h4]
    · intro h1 h2 h3 h4 h5
      simp only [inferTypeFromValue]
      rw [if_neg h1, if_neg h2, if_neg h3, if_neg (by simp [h4]), if_pos h5]
    · intro h1 h2 h3 h4 h5
      simp only [inferTypeFromValue]
      rw [if_neg h1, if_neg h2, if_neg h3, if_neg (by simp [h4]),
        if_neg (by simp [h5])]
  · exact ⟨by decide, by decide, by decide, by decide, by decide, by decide⟩

/-- Witness for C5: the theorem applied at the concrete input
`"GetGameTimer()"`, whose stripped form matches no earlier case. -/
theorem inferTypeFromValue_priority_witness :
    inferTypeFromValue "GetGameTimer()" = "any" :=
  (inferTypeFromValue_priority.1 "GetGameTimer()").2.2.2.2.2
    (by decide) (by decide) (by decide) (by decide) (by decide)

theorem dropWhile_append_single {p : Char → Bool} {q : Char} (hq : p q = false) :
    ∀ A : List Char, (A ++ [q]).dropWhile p = A.dropWhile p ++ [q] := by
  intro A
  induction A with
  | nil => simp [List.dropWhile, hq]
  | cons a A ih =>
    by_cases h : p a = true
    · simp [List.dropWhile, h, ih]
    · simp [List.dropWhile, h]

theorem trimChars_cons {q : Char} (hq : q.isWhitespace = false) (t : List Char) :
    ∃ u, trimChars (q :: t) = q :: u := by
  refine ⟨((t.reverse.dropWhile Char.isWhitespace)).reverse, ?_⟩
  unfold trimChars
  rw [List.dropWhile_cons, if_neg (by simp [hq])]
  rw [List.reverse_cons, dropWhile_append_single hq, List.reverse_append]
  simp

theorem takeUntilDashDash_cons {q : Char} (hq : q ≠ '-') (t : List Char) :
    ∃ u, takeUntilDashDash (q :: t) = q :: u := by
  cases t with
  | nil => exact ⟨[], rfl⟩
  | cons d r =>
    refine ⟨takeUntilDashDash (d :: r), ?_⟩
    rw [show takeUntilDashDash (q :: d :: r)
        = if q = '-' ∧ d = '-' then [] else q :: takeUntilDashDash (d :: r) from rfl]
    rw [if_neg (by simp [hq])]

theorem stripComment_quote_head {q : Char} (hq1 : q ≠ '-')
    (hq2 : q.isWhitespace = false) {value : String} {t : List Char}
    (h : value.data = q :: t) :
    ∃ u, (stripComment value).data = q :: u := by
  unfold stripComment jsTrim
  rw [h]
  obtain ⟨u1, hu1⟩ := takeUntilDashDash_cons hq1 t
  rw [hu1]
  obtain ⟨u2, hu2⟩ := trimChars_cons hq2 u1
  exact ⟨u2, by rw [hu2]⟩

theorem jsStartsWith_char {q : Char} {s : String} :
    jsStartsWith s (String.mk [q]) = true ↔ ∃ t, s.data = q :: t := by
  unfold jsStartsWith
  cases hs : s.data with
  | nil => simp [List.isPrefixOf]
  | cons c t =>
    simp only [List.isPrefixOf, Bool.and_true, beq_iff_eq]
    constructor
    · intro h
      exact ⟨t, by rw [h.symm]⟩
    · rintro ⟨t', ht'⟩
      cases ht'
      rfl

theorem isNumericJS_false_of_quote_head {s : String} {q : Char} {u : List Char}
    (hu : s.data = q :: u) (h1 : q ≠ '-') (h2 : q.isDigit = false) :
    isNumericJS s = false := by
  unfold isNumericJS
  rw [hu]
  simp [h1, h2]

/-- Claim C10 (counterexample): The claim promises `"any"` for every fully
quote-delimited literal whose content contains `--`; on the literal `"--"`
(quote, dash, dash, quote) the surviving fragment is the lone opening quote,
which degenerately passes the outer-quote-pair check, so `inferTypeFromValue`
returns `"string"`, not `"any"`. -/
theorem inferType_stripPrecedesQuotes_counterexample :
    inferTypeFromValue "\"--\"" = "string" ∧ inferTypeFromValue "\"--\"" ≠ "any" := by
  decide

/-- Claim C10 (amended): For every quote-delimited value whose content contains
the `--` marker, everything from the first `--` onward is removed before the
outer-quote-pair check; provided the surviving trimmed fragment does not
itself end with a quote character (in particular, provided something other
than whitespace stands between the opening quote and the first `--`), the
fragment is an unterminated leading piece and the result is `"any"`. -/
theorem inferType_stripPrecedesQuotes_amended :
    ∀ value : String,
      ((jsStartsWith value singleQuoteStr = true ∧ jsEndsWith value singleQuoteStr = true)
        ∨ (jsStartsWith value "\"" = true ∧ jsEndsWith value "\"" = true)) →
      jsIncludes value "--" = true →
      jsEndsWith (stripComment value) singleQuoteStr = false →
      jsEndsWith (stripComment value) "\"" = false →
      inferTypeFromValue value = "any" := by
  intro value h1 _h2 h3 h4
  have hq : ∃ q, (q = singleQuote ∨ q = '"') ∧ ∃ t, value.data = q :: t := by
    rcases h1 with ⟨hs, _⟩ | ⟨hs, _⟩
    · exact ⟨singleQuote, Or.inl rfl, jsStartsWith_char.mp hs⟩
    · exact ⟨'"', Or.inr rfl, jsStartsWith_char.mp hs⟩
  obtain ⟨q, hq12, t, ht⟩ := hq
  have hqd : q ≠ '-' := by rcases hq12 with h | h <;> subst h <;> decide
  have hqw : q.isWhitespace = false := by
    rcases hq12 with h | h <;> subst h <;> decide
  obtain ⟨u, hu⟩ := stripComment_quote_head hqd hqw ht
  have hne : ∀ w : String, w.data ≠ q :: u → stripComment value ≠ w := by
    intro w hw heq
    exact hw (by rw [← heq, hu])
  have hnotbool : ¬ (stripComment value = "true" ∨ stripComment value = "false") := by
    rintro (h | h)
    · refine hne "true" ?_ h
      intro hw
      rw [show "true".data = ['t', 'r', 'u', 'e'] from rfl] at hw
      injection hw with hw1 _
      rcases hq12 with hh | hh <;> subst hh <;> exact absurd hw1 (by decide)
    · refine hne "false" ?_ h
      intro hw
      rw [show "false".data = ['f', 'a', 'l', 's', 'e'] from rfl] at hw
      injection hw with hw1 _
      rcases hq12 with hh | hh <;> subst hh <;> exact absurd hw1 (by decide)
  have hnotnil : stripComment value ≠ "nil" := by
    refine hne "nil" ?_
    intro hw
    rw [show "nil".data = ['n', 'i', 'l'] from rfl] at hw
    injection hw with hw1 _
    rcases hq12 with hh | hh <;> subst hh <;> exact absurd hw1 (by decide)
  have hnotstr : ¬ ((jsStartsWith (stripComment value) singleQuoteStr
        ∧ jsEndsWith (stripComment value) singleQuoteStr)
      ∨ (jsStartsWith (stripComment value) "\""
        ∧ jsEndsWith (stripComment value) "\"")) := by
    rintro (⟨_, he⟩ | ⟨_, he⟩)
    · rw [h3] at he
      exact absurd he (by decide)
    · rw [h4] at he
      exact absurd he (by decide)
  have hnotnum : isNumericJS (stripComment value) = false := by
    refine isNumericJS_false_of_quote_head hu hqd ?_
    rcases hq12 with hh | hh <;> subst hh <;> decide
  have hnotbrace : ¬ jsStartsWith (stripComment value) "\x7b" = true := by
    intro hbrace
    obtain ⟨t', ht'⟩ := jsStartsWith_char.mp hbrace
    rw [hu] at ht'
    injection ht' with h1' _
    rcases hq12 with hh | hh <;> subst hh <;> exact absurd h1' (by decide)
  simp only [inferTypeFromValue]
  rw [if_neg hnotbool, if_neg hnotnil, if_neg hnotstr,
    if_neg (by simp [hnotnum]), if_neg hnotbrace]

/-- Witness for C10 (amended): applied at the quoted literal `"a--b"`. -/
theorem inferType_stripPrecedesQuotes_witness :
    inferTypeFromValue "\"a--b\"" = "any" :=
  inferType_stripPrecedesQuotes_amended "\"a--b\""
    (Or.inr ⟨by decide, by decide⟩) (by decide) (by decide) (by decide)

example : (extractDocumentation ["---desc", "", "---@param x string"] 3).rawComments
    = ["@param x string"] := by decide
example : (extractDocumentation ["---desc", "", "---@param x string"] 3).params
    = [⟨"x", "string", ""⟩] := by decide
example : rawCommentsV1 ["-- plain note"] 1 = [] := by decide
example : (extractDocumentation ["-- plain note"] 1).rawComments = ["plain note"] := by decide

theorem collect_eq_nil_of_blank (lines : List String) (n : Nat)
    (h : jsTrim (lines.getD n "") = "") : collectCommentLines lines n = [] := by
  cases n <;> simp only [collectCommentLines] <;> rw [h] <;> simp

theorem collect_barrier (A B : List String) :
    ∀ j, j ≤ B.length →
      collectCommentLines (A ++ "" :: B) (A.length + j)
        = collectCommentLines ("" :: B) j := by
  intro j
  induction j with
  | zero =>
    intro _
    have hl : (A ++ "" :: B).getD (A.length + 0) "" = "" := by
      rw [List.getD_append_right _ _ _ _ (by omega)]
      simp
    rw [collect_eq_nil_of_blank _ _ (by rw [hl]; rfl),
      collect_eq_nil_of_blank _ _ (by rfl)]
  | succ k ih =>
    intro hk
    have he : (A ++ "" :: B).getD (A.length + (k + 1)) ""
        = ("" :: B).getD (k + 1) "" := by
      rw [List.getD_append_right _ _ _ _ (by omega)]
      congr 1
      omega
    rw [show A.length + (k + 1) = (A.length + k) + 1 from by omega] at he ⊢
    simp only [collectCommentLines]
    rw [he, ih (by omega)]

/-- Claim C7: Backward comment collection of the canonical
`extractDocumentation` stops at the first blank line: whatever stands above
the blank line contributes nothing to the documentation (first conjunct, for
every prefix `A` above the blank line and every run `B` below it), and on the
claim's concrete example `---desc`, blank, `---@param x string` the resulting
documentation has an empty description and consists of the `@param` line
only (second conjunct). -/
theorem blankLine_terminates_block :
    (∀ A B : List String,
      extractDocumentation (A ++ "" :: B) (A.length + 1 + B.length)
        = extractDocumentation ("" :: B) (B.length + 1))
    ∧ extractDocumentation ["---desc", "", "---@param x string"] 3
        = { description := "", params := [⟨"x", "string", ""⟩], returns := [],
            rawComments := ["@param x string"], deprecated := none } := by
  constructor
  · intro A B
    rw [show A.length + 1 + B.length = (A.length + B.length) + 1 from by omega]
    simp only [extractDocumentation, rawCommentsOf]
    rw [collect_barrier A B B.length (le_refl _)]
  · decide

/-- Claim C4 (code_bug evaluation): The claim says a plain `--` line is
collected only when a `---` line occurs in the same contiguous run, so a run
of only plain lines collects zero lines.  The part_002 revision implements
exactly that (second and fourth conjuncts), but the canonical part_003
revision computes the `hasThreeDashComments` gate and then never applies it:
on a run consisting solely of the plain line `-- plain note` it collects that
line instead of collecting nothing (first conjunct), while on an interleaved
run both revisions collect all lines (third and fourth conjuncts). -/
theorem commentGate_divergence :
    (extractDocumentation ["-- plain note"] 1).rawComments = ["plain note"]
    ∧ rawCommentsV1 ["-- plain note"] 1 = []
    ∧ (extractDocumentation ["---Adds a job", "-- changelog entry"] 2).rawComments
        = ["Adds a job", "changelog entry"]
    ∧ rawCommentsV1 ["---Adds a job", "-- changelog entry"] 2
        = ["Adds a job", "changelog entry"] := by
  decide

example : parseExport ["exports(\"foo\", function(a, b)", "end)"] 0 "server"
    = some { name := "foo", context := "server"
             documentation := ⟨"", [], [], [], none⟩
             parameters := [⟨"a", "any"⟩, ⟨"b", "any"⟩]
             returnTypes := [], description := ""
             filePath := "exports(\"foo\", function(a, b)" } := by decide
example : parseExport ["exports(\"foo\",", "function(a, b)", "end)"] 0 "server"
    = none := by decide
example : (parseExport ["local function helper(x)", "end",
    "exports(\"doStuff\", helper)"] 2 "server").map ExportRecord.parameters
    = some [⟨"x", "any"⟩] := by decide

/-- Claim C6 (counterexample): The claim says an export whose inline literal
header starts within a 3-5 line forward window past the call line is still
recognized and produces a record; in the code the inline flag and the
name-extraction regexes only inspect the export call line itself, so the call
`exports("foo",` followed by `function(a, b)` on the next line produces no
record at all. -/
theorem inline_lookahead_counterexample :
    parseExport ["exports(\"foo\",", "function(a, b)", "end)"] 0 "server" = none := by
  decide

/-- Claim C6 (amended): An export is recognized as inline only when
`function(` or `function (` occurs on the export call line itself: a call
line that contains neither and does not match the bare-reference pattern
yields no record (first conjunct); when the header does start on the call
line, the parameter list is parsed from the header reassembled across the
forward window, here split over two lines (second conjunct). -/
theorem inline_lookahead_amended :
    (∀ (lines : List String) (i : Nat) (ctx : String),
      jsIncludes (lines.getD i "") "function(" = false →
      jsIncludes (lines.getD i "") "function (" = false →
      searchPos tryExportRef (lines.getD i "").data = none →
      parseExport lines i ctx = none)
    ∧ (∃ r, parseExport ["exports(\"foo\", function(", "a, b) end)"] 0 "server"
          = some r
        ∧ r.parameters = [⟨"a", "any"⟩, ⟨"b", "any"⟩]) := by
  constructor
  · intro lines i ctx h1 h2 h3
    simp only [parseExport]
    rw [h3, if_neg (by rw [h1, h2]; exact fun h => nomatch h)]
  · exact ⟨{ name := "foo", context := "server"
             documentation := ⟨"", [], [], [], none⟩
             parameters := [⟨"a", "any"⟩, ⟨"b", "any"⟩]
             returnTypes := [], description := ""
             filePath := "exports(\"foo\", function(" },
      by decide, by decide⟩

/-- Witness for C6 (amended): the general conjunct applied at a concrete
two-line export whose literal header only starts on the second line. -/
theorem inline_lookahead_amended_witness :
    parseExport ["exports(\"bar\",", "function(x)", "end)"] 0 "client" = none :=
  inline_lookahead_amended.1 ["exports(\"bar\",", "function(x)", "end)"] 0 "client"
    (by decide) (by decide) (by decide)

/-- Claim C8: For every export call line matching the bare-reference pattern
(and not treated as inline), when no matching non-commented function header
exists within the 500-line backward window (`findFunctionDefinition` returns
nothing), `parseExport` still returns a declaration record carrying the
export's name, an empty parameter list, no return types, and documentation
extracted relative to the export call line itself; the embedding is a total
function, so no input can raise.  The record is not dropped. -/
theorem unresolvedRef_degrades :
    ∀ (lines : List String) (i : Nat) (ctx nm ref : String),
      jsIncludes (lines.getD i "") "function(" = false →
      jsIncludes (lines.getD i "") "function (" = false →
      searchPos tryExportRef (lines.getD i "").data = some (nm, ref) →
      findFunctionDefinition lines i ref = none →
      ∃ r, parseExport lines i ctx = some r
        ∧ r.name = nm
        ∧ r.parameters = []
        ∧ r.returnTypes = []
        ∧ r.documentation = extractDocumentation lines i := by
  intro lines i ctx nm ref h1 h2 h3 h4
  refine ⟨{ name := nm, context := ctx
            documentation := extractDocumentation lines i
            parameters := [], returnTypes := []
            description := jsOr (extractDocumentation lines i).description ""
            filePath := lines.getD i "" }, ?_, rfl, rfl, rfl, rfl⟩
  simp only [parseExport]
  rw [h3]
  have hcond : (jsIncludes (lines.getD i "") "function("
      || jsIncludes (lines.getD i "") "function (") = false := by
    rw [h1, h2]; rfl
  have h1' := h1
  have h2' := h2
  rw [List.getD_eq_getElem?_getD] at h1' h2'
  simp [hcond, h1, h2, h1', h2', h4]

/-- Witness for C8: a lone export call referencing a helper that is defined
nowhere above it. -/
theorem unresolvedRef_degrades_witness :
    ∃ r, parseExport ["exports(\"doStuff\", helper)"] 0 "shared" = some r
      ∧ r.name = "doStuff"
      ∧ r.parameters = []
      ∧ r.returnTypes = []
      ∧ r.documentation = extractDocumentation ["exports(\"doStuff\", helper)"] 0 :=
  unresolvedRef_degrades ["exports(\"doStuff\", helper)"] 0 "shared" "doStuff" "helper"
    (by decide) (by decide) (by decide) (by decide)

theorem mapGet_mapSet_self {α : Type} (m : List (String × α)) (k : String) (v : α) :
    mapGet (mapSet m k v) k = some v := by
  induction m with
  | nil => simp [mapGet, mapSet]
  | cons kv rest ih =>
    by_cases h : kv.1 = k
    · simp [mapSet, mapGet, h]
    · simp [mapSet, mapGet, h, ih]

theorem mapGet_mapSet_ne {α : Type} (m : List (String × α)) {k n : String} (v : α)
    (h : k ≠ n) : mapGet (mapSet m k v) n = mapGet m n := by
  induction m with
  | nil => simp [mapGet, mapSet, h]
  | cons kv rest ih =>
    by_cases h2 : kv.1 = k
    · simp [mapSet, mapGet, h2, h]
    · simp [mapSet, mapGet, h2, ih]

theorem mapGet_map_value {α β : Type} (f : α → β) (m : List (String × α)) (k : String) :
    mapGet (m.map (fun kv => (kv.1, f kv.2))) k = (mapGet m k).map f := by
  induction m with
  | nil => simp [mapGet]
  | cons kv rest ih =>
    by_cases h : kv.1 = k
    · simp [mapGet, h]
    · simp [mapGet, h, ih]

theorem mergedParamOf_name (docMap : List (String × DocParam)) (fp : FuncParam) :
    (mergedParamOf docMap fp).name = fp.name := by
  unfold mergedParamOf
  cases mapGet docMap fp.name <;> rfl

theorem mapGet_docMapFold (dp : List DocParam) (n : String) :
    ∀ m, mapGet (dp.foldl (fun m d => mapSet m d.name d) m) n
      = match lastDocParam dp n with
        | some d => some d
        | none => mapGet m n := by
  induction dp with
  | nil => intro m; simp [lastDocParam]
  | cons d rest ih =>
    intro m
    simp only [List.foldl_cons, lastDocParam]
    rw [ih]
    by_cases hn : d.name = n
    · cases hr : lastDocParam rest n with
      | some r => simp
      | none => simp [hn, hn ▸ mapGet_mapSet_self m d.name d]
    · cases hr : lastDocParam rest n with
      | some r => simp
      | none => simp [hn, mapGet_mapSet_ne m d hn]

theorem mapGet_docMap (dp : List DocParam) (n : String) :
    mapGet (dp.foldl (fun m d => mapSet m d.name d) []) n = lastDocParam dp n := by
  rw [mapGet_docMapFold]
  cases lastDocParam dp n <;> simp [mapGet]

theorem lastDocParam_mem {dp : List DocParam} {n : String} {d : DocParam}
    (h : lastDocParam dp n = some d) : d ∈ dp := by
  induction dp with
  | nil => simp [lastDocParam] at h
  | cons d0 rest ih =>
    simp only [lastDocParam] at h
    cases hr : lastDocParam rest n with
    | some r =>
      rw [hr] at h
      exact List.mem_cons_of_mem _ (ih (hr.trans h))
    | none =>
      rw [hr] at h
      by_cases hn : d0.name = n
      · rw [if_pos hn] at h
        exact (Option.some_inj.mp h) ▸ List.mem_cons_self d0 rest
      · rw [if_neg hn] at h
        exact absurd h (by simp)

theorem jsOr_empty (x : String) : jsOr x "" = x := by
  unfold jsOr
  by_cases h : x = "" <;> simp [h]

/-- Claim C9: `mergeParameters` produces one entry per signature parameter, in
signature order (first conjunct: the name sequence is the signature names
followed by the unmatched tag names; second conjunct: past the signature
part, the merged list is exactly the unmatched tags in tag order), and each
signature position takes the same-named tag's type and description when such
a tag exists (the last one, matching the map's last-write-wins behaviour) and
otherwise defaults to type `"any"` and an empty description (third conjunct;
the hypotheses record that `@param` tags always carry a non-empty type and
signature parameters always carry type `"any"`, as produced by
`tryParamTag` and `parseFunctionSignature`). -/
theorem mergeParameters_identity_merge :
    ∀ (funcParams : List FuncParam) (docParams : List DocParam),
      ((mergeParameters funcParams docParams).map (fun p => p.name)
        = funcParams.map (fun p => p.name)
          ++ (docParams.filter
              (fun d => !(funcParams.any (fun p => p.name == d.name)))).map
            (fun d => d.name))
      ∧ ((mergeParameters funcParams docParams).drop funcParams.length
          = docParams.filter (fun d => !(funcParams.any (fun p => p.name == d.name))))
      ∧ (∀ i (h : i < funcParams.length),
          (∀ d ∈ docParams, d.type ≠ "") →
          (∀ p ∈ funcParams, p.type = "any") →
          (mergeParameters funcParams docParams).getD i ⟨"", "", ""⟩
            = match lastDocParam docParams funcParams[i].name with
              | some d => ⟨funcParams[i].name, d.type, d.description⟩
              | none => ⟨funcParams[i].name, "any", ""⟩) := by
  intro funcParams docParams
  refine ⟨?_, ?_, ?_⟩
  · simp only [mergeParameters, List.map_append, List.map_map]
    congr 1
    exact List.map_congr_left fun a _ => mergedParamOf_name _ a
  · simp only [mergeParameters]
    rw [show funcParams.length
        = (funcParams.map (mergedParamOf
            (docParams.foldl (fun m d => mapSet m d.name d) []))).length
      from (List.length_map _ _).symm]
    exact List.drop_left _ _
  · intro i h hall hfp
    simp only [mergeParameters]
    rw [List.getD_append _ _ _ _ (by simpa using h)]
    rw [List.getD_eq_getElem _ _ (by simpa using h)]
    rw [List.getElem_map]
    unfold mergedParamOf
    rw [mapGet_docMap]
    cases hd : lastDocParam docParams funcParams[i].name with
    | some d =>
      have hdty : d.type ≠ "" := hall d (lastDocParam_mem hd)
      simp only [jsOr_empty]
      rw [show jsOr d.type (jsOr funcParams[i].type "any") = d.type
        from by unfold jsOr; rw [if_neg hdty]]
    | none =>
      have hty : funcParams[i].type = "any" :=
        hfp _ (List.getElem_mem _)
      rw [hty]
      rfl

/-- Witness for C9: the third conjunct applied at index 0 of a concrete
signature/tag pair. -/
theorem mergeParameters_identity_merge_witness :
    (mergeParameters [⟨"a", "any"⟩, ⟨"b", "any"⟩]
        [⟨"b", "string", "second arg"⟩, ⟨"extra", "number", "vararg"⟩]).getD 0 ⟨"", "", ""⟩
      = match lastDocParam [⟨"b", "string", "second arg"⟩, ⟨"extra", "number", "vararg"⟩]
          ([(⟨"a", "any"⟩ : FuncParam), ⟨"b", "any"⟩][0]).name with
        | some d => ⟨([(⟨"a", "any"⟩ : FuncParam), ⟨"b", "any"⟩][0]).name, d.type, d.description⟩
        | none => ⟨([(⟨"a", "any"⟩ : FuncParam), ⟨"b", "any"⟩][0]).name, "any", ""⟩ :=
  (mergeParameters_identity_merge [⟨"a", "any"⟩, ⟨"b", "any"⟩]
      [⟨"b", "string", "second arg"⟩, ⟨"extra", "number", "vararg"⟩]).2.2 0
    (by decide) (by decide) (by decide)

example :
    (mapGet (mergeStateBags
        [("k", ⟨"k", "boolean", "server", ["resA"], "true", false⟩)]
        [("k", ⟨"k", "boolean", "client", ["resB"], "true", false⟩)]) "k").map
      MEntry.replication = some "server only" := by decide
example :
    (mapGet (mergeStateBags
        [("k", ⟨"k", "boolean", "server", ["resA"], "true", false⟩)]
        [("k", ⟨"k", "boolean", "client", ["resB"], "true", true⟩)]) "k").map
      MEntry.replication = some "bidirectional" := by decide

theorem mapGet_none_of_not_mem_keys {α : Type} {m : List (String × α)} {n : String}
    (h : n ∉ m.map Prod.fst) : mapGet m n = none := by
  induction m with
  | nil => rfl
  | cons kv rest ih =>
    simp only [List.map_cons, List.mem_cons] at h
    push_neg at h
    have h1 : kv.1 ≠ n := fun hh => h.1 hh.symm
    simp [mapGet, h1, ih h.2]

theorem clientFold_get_of_absent :
    ∀ (lm : List (String × PEntry)) (m : List (String × MEntry)) (n : String),
      mapGet lm n = none →
      mapGet (lm.foldl clientMergeStep m) n = mapGet m n := by
  intro lm
  induction lm with
  | nil => intro m n _; rfl
  | cons kv rest ih =>
    intro m n h
    have hk : kv.1 ≠ n := by
      intro he
      simp [mapGet, he] at h
    have hrest : mapGet rest n = none := by
      simpa [mapGet, hk] using h
    rw [List.foldl_cons, ih _ _ hrest]
    exact mapGet_mapSet_ne _ _ hk

theorem clientFold_get_of_present :
    ∀ (lm : List (String × PEntry)) (m : List (String × MEntry)) (n : String)
      (le : PEntry),
      (lm.map Prod.fst).Nodup →
      mapGet lm n = some le →
      mapGet (lm.foldl clientMergeStep m) n
        = some (clientUpdateVal (mapGet m n) le) := by
  intro lm
  induction lm with
  | nil => intro m n le _ h; simp [mapGet] at h
  | cons kv rest ih =>
    intro m n le hnd h
    rw [List.map_cons, List.nodup_cons] at hnd
    rw [List.foldl_cons]
    by_cases hk : kv.1 = n
    · have hle : le = kv.2 := by
        rw [mapGet, if_pos hk] at h
        exact (Option.some_inj.mp h).symm
      have hrest : mapGet rest n = none :=
        mapGet_none_of_not_mem_keys (hk ▸ hnd.1)
      rw [clientFold_get_of_absent rest _ n hrest]
      unfold clientMergeStep
      rw [hk, hle, mapGet_mapSet_self]
    · have hrest : mapGet rest n = some le := by
        rw [mapGet, if_neg hk] at h
        exact h
      rw [ih _ n le hnd.2 hrest]
      unfold clientMergeStep
      rw [mapGet_mapSet_ne _ _ hk]

/-- Claim C1 (counterexample): The claim says a key observed on both the
server side and the client side always resolves to `"bidirectional"`,
irrespective of either side's replicated flag; in the merged view built by
`generateStateFile`, a key observed unreplicated on both sides keeps the
server-side value `"server only"`. -/
theorem stateBag_replication_counterexample :
    (mapGet (mergeStateBags
        [("k", ⟨"k", "boolean", "server", ["resA"], "true", false⟩)]
        [("k", ⟨"k", "boolean", "client", ["resB"], "true", false⟩)]) "k").map
      MEntry.replication = some "server only"
    ∧ (mapGet (mergeStateBags
        [("k", ⟨"k", "boolean", "server", ["resA"], "true", false⟩)]
        [("k", ⟨"k", "boolean", "client", ["resB"], "true", false⟩)]) "k").map
      MEntry.replication ≠ some "bidirectional" := by
  decide

/-- Claim C1 (amended): In the merged per-entity view: a key observed only on
the server side resolves to `"to client"` when replicated and `"server only"`
otherwise; only on the client side, to `"to server"` when replicated and
`"client only"` otherwise; observed on both sides, to `"bidirectional"` when
the client-side observation's replicated flag is set, and otherwise the
merged replication keeps the server-side value (`"to client"` or
`"server only"`).  The client-side map is assumed to have distinct keys, as
JavaScript `Map`s do. -/
theorem stateBag_replication_amended :
    ∀ (pm lm : List (String × PEntry)) (n : String),
      (lm.map Prod.fst).Nodup →
      ((∀ pe, mapGet pm n = some pe → mapGet lm n = none →
          (mapGet (mergeStateBags pm lm) n).map MEntry.replication
            = some (if pe.replicated then "to client" else "server only"))
      ∧ (∀ le, mapGet pm n = none → mapGet lm n = some le →
          (mapGet (mergeStateBags pm lm) n).map MEntry.replication
            = some (if le.replicated then "to server" else "client only"))
      ∧ (∀ pe le, mapGet pm n = some pe → mapGet lm n = some le →
          (mapGet (mergeStateBags pm lm) n).map MEntry.replication
            = some (if le.replicated then "bidirectional"
                else if pe.replicated then "to client" else "server only"))) := by
  intro pm lm n hnd
  have hinit : mapGet (pm.map (fun kv => (kv.1, serverInitEntry kv.2))) n
      = (mapGet pm n).map serverInitEntry := mapGet_map_value _ _ _
  refine ⟨?_, ?_, ?_⟩
  · intro pe hp hl
    unfold mergeStateBags
    rw [clientFold_get_of_absent _ _ _ hl, hinit, hp]
    rfl
  · intro le hp hl
    unfold mergeStateBags
    rw [clientFold_get_of_present _ _ _ _ hnd hl, hinit, hp]
    rfl
  · intro pe le hp hl
    unfold mergeStateBags
    rw [clientFold_get_of_present _ _ _ _ hnd hl, hinit, hp]
    cases hler : le.replicated <;> cases hper : pe.replicated <;>
      simp [clientUpdateVal, serverInitEntry, hler, hper, apply_ite MEntry.replication]

theorem widen_foldl_absorb : ∀ ts : List String, ts.foldl widen "any" = "any" := by
  intro ts
  induction ts with
  | nil => rfl
  | cons t ts ih =>
    rw [List.foldl_cons,
      show widen "any" t = "any" from by unfold widen; exact ite_self _]
    exact ih

theorem widen_foldl_eq : ∀ (ts : List String) (t0 : String),
    ts.foldl widen t0 = if ∀ t ∈ ts, t = t0 then t0 else "any" := by
  intro ts
  induction ts with
  | nil => intro t0; simp
  | cons t ts ih =>
    intro t0
    rw [List.foldl_cons]
    by_cases ht : t = t0
    · rw [show widen t0 t = t0 from by unfold widen; rw [if_pos ht.symm]]
      rw [ih t0]
      simp [List.forall_mem_cons, ht]
    · rw [show widen t0 t = "any" from by
        unfold widen; rw [if_neg (fun h => ht h.symm)]]
      rw [widen_foldl_absorb]
      rw [if_neg (fun hall => ht (hall t (List.mem_cons_self t ts)))]

theorem aggregateGlobalStates_eq_flat (calls : List (List GObs × String)) :
    aggregateGlobalStates calls = aggFlatG (flatGObs calls) := by
  suffices h : ∀ (calls : List (List GObs × String)) (m : List (String × GEntry)),
      calls.foldl (fun m c => addGlobalStates m c.1 c.2) m
        = (flatGObs calls).foldl (fun m p => addGlobalState m p.1 p.2) m from
    h calls []
  intro calls
  induction calls with
  | nil => intro m; rfl
  | cons c cs ih =>
    intro m
    rw [List.foldl_cons, ih]
    unfold flatGObs
    rw [List.map_cons, List.flatten_cons, List.foldl_append, List.foldl_map]
    rfl

theorem addGlobalState_get_ne {m : List (String × GEntry)} {state : GObs}
    {r n : String} (h : state.name ≠ n) :
    mapGet (addGlobalState m state r) n = mapGet m n := by
  unfold addGlobalState
  cases mapGet m state.name <;> exact mapGet_mapSet_ne _ _ h

theorem mem_insertRes (res : List String) (rn r : String) :
    (r ∈ (if res.contains rn then res else res ++ [rn])) ↔ r ∈ res ∨ r = rn := by
  by_cases hc : res.contains rn = true
  · have hin : rn ∈ res := List.elem_iff.mp hc
    rw [if_pos hc]
    constructor
    · exact Or.inl
    · rintro (h | h)
      · exact h
      · exact h ▸ hin
  · rw [if_neg hc]
    simp

theorem gUpdate_type (e : GEntry) (state : GObs) (r : String) :
    (gUpdate e state r).type = widen e.type state.type := by
  unfold gUpdate widen
  by_cases h : e.type = state.type <;> simp [h]

theorem gUpdate_resources_mem (e : GEntry) (state : GObs) (r rr : String) :
    rr ∈ (gUpdate e state r).resources ↔ rr ∈ e.resources ∨ rr = r := by
  unfold gUpdate
  by_cases h : e.type = state.type
  · simp only [h, if_pos]
    exact mem_insertRes _ _ _
  · simp only [h, if_neg, if_false]
    exact mem_insertRes _ _ _

theorem addGlobalState_get_present {m : List (String × GEntry)} {state : GObs}
    {r n : String} {e : GEntry} (hn : state.name = n)
    (he : mapGet m state.name = some e) :
    mapGet (addGlobalState m state r) n = some (gUpdate e state r) := by
  unfold addGlobalState
  rw [he]
  show mapGet (mapSet m state.name (gUpdate e state r)) n = _
  rw [hn]
  exact mapGet_mapSet_self _ _ _

theorem addGlobalState_get_new {m : List (String × GEntry)} {state : GObs}
    {r n : String} (hn : state.name = n)
    (he : mapGet m state.name = none) :
    mapGet (addGlobalState m state r) n
      = some ⟨state.name, state.type, state.context, [r], state.value⟩ := by
  unfold addGlobalState
  rw [he]
  show mapGet (mapSet m state.name _) n = _
  rw [hn]
  exact mapGet_mapSet_self _ _ _

/-- Characterization of one merged entry of the GlobalState aggregator: the
entry for `n` exists iff some observation of `n` was seen; its type is the
widening fold of the observed types in arrival order, and its resource list
carries exactly the owning resources of the observations of `n`. -/
theorem aggFlatG_char (n : String) : ∀ flat : List (GObs × String),
    (flat.filter (fun p => p.1.name == n) = [] → mapGet (aggFlatG flat) n = none)
    ∧ (∀ q qs, flat.filter (fun p => p.1.name == n) = q :: qs →
        ∃ e, mapGet (aggFlatG flat) n = some e
          ∧ e.type = (qs.map (fun p => p.1.type)).foldl widen q.1.type
          ∧ (∀ r, r ∈ e.resources ↔ r ∈ (q :: qs).map Prod.snd)) := by
  intro flat
  induction flat using List.reverseRecOn with
  | nil =>
    refine ⟨fun _ => rfl, fun q qs h => ?_⟩
    simp at h
  | append_singleton fs p ih =>
    have hstep : aggFlatG (fs ++ [p]) = addGlobalState (aggFlatG fs) p.1 p.2 := by
      unfold aggFlatG
      rw [List.foldl_append]
      rfl
    constructor
    · intro h
      rw [List.filter_append] at h
      obtain ⟨h1, h2⟩ := List.append_eq_nil.mp h
      have hnp : ¬ ((p.1.name == n) = true) := by
        intro hb
        simp [hb] at h2
      have hne : p.1.name ≠ n := fun he => hnp (by simp [he])
      rw [hstep, addGlobalState_get_ne hne]
      exact ih.1 h1
    · intro q qs h
      rw [List.filter_append] at h
      by_cases hp : (p.1.name == n) = true
      · have hpn : p.1.name = n := by simpa using hp
        have hfp : [p].filter (fun p => p.1.name == n) = [p] := by simp [hp]
        rw [hfp] at h
        cases hF : fs.filter (fun p => p.1.name == n) with
        | nil =>
          rw [hF, List.nil_append] at h
          injection h with hq hqs
          have hnone : mapGet (aggFlatG fs) p.1.name = none := by
            rw [hpn]
            exact ih.1 hF
          rw [hstep, addGlobalState_get_new hpn hnone]
          refine ⟨_, rfl, ?_, ?_⟩
          · rw [← hq, ← hqs]
            rfl
          · intro r
            rw [← hq, ← hqs]
            simp
        | cons q0 qs0 =>
          rw [hF, List.cons_append] at h
          injection h with hq hqs
          obtain ⟨e, he, hty, hres⟩ := ih.2 q0 qs0 hF
          have he' : mapGet (aggFlatG fs) p.1.name = some e := by
            rw [hpn]
            exact he
          rw [hstep, addGlobalState_get_present hpn he']
          refine ⟨_, rfl, ?_, ?_⟩
          · rw [gUpdate_type, ← hq, ← hqs, List.map_append, List.foldl_append]
            simp only [List.map_cons, List.map_nil, List.foldl_cons, List.foldl_nil]
            rw [hty]
          · intro r
            rw [gUpdate_resources_mem, hres r, ← hq, ← hqs]
            simp [or_assoc]
      · have hp' : (p.1.name == n) = false := by
          cases hb : (p.1.name == n)
          · rfl
          · exact absurd hb hp
        have hfp : [p].filter (fun p => p.1.name == n) = [] := by simp [hp']
        rw [hfp, List.append_nil] at h
        have hne : p.1.name ≠ n := fun he => hp (by simp [he])
        rw [hstep, addGlobalState_get_ne hne]
        exact ih.2 q qs h

theorem aggregatePlayerStates_eq_flat (calls : List (List PObs × String)) :
    aggregatePlayerStates calls = aggFlatP (flatPObs calls) := by
  suffices h : ∀ (calls : List (List PObs × String)) (m : List (String × PEntry)),
      calls.foldl (fun m c => addPlayerStates m c.1 c.2) m
        = (flatPObs calls).foldl (fun m p => addPlayerState m p.1 p.2) m from
    h calls []
  intro calls
  induction calls with
  | nil => intro m; rfl
  | cons c cs ih =>
    intro m
    rw [List.foldl_cons, ih]
    unfold flatPObs
    rw [List.map_cons, List.flatten_cons, List.foldl_append, List.foldl_map]
    rfl

theorem addPlayerState_get_ne {m : List (String × PEntry)} {state : PObs}
    {r n : String} (h : state.name ≠ n) :
    mapGet (addPlayerState m state r) n = mapGet m n := by
  unfold addPlayerState
  cases mapGet m state.name <;> exact mapGet_mapSet_ne _ _ h

theorem pUpdate_type (e : PEntry) (state : PObs) (r : String) :
    (pUpdate e state r).type = widen e.type state.type := by
  unfold pUpdate widen
  by_cases h : e.type = state.type <;> simp [h]

theorem addPlayerState_get_present {m : List (String × PEntry)} {state : PObs}
    {r n : String} {e : PEntry} (hn : state.name = n)
    (he : mapGet m state.name = some e) :
    mapGet (addPlayerState m state r) n = some (pUpdate e state r) := by
  unfold addPlayerState
  rw [he]
  show mapGet (mapSet m state.name (pUpdate e state r)) n = _
  rw [hn]
  exact mapGet_mapSet_self _ _ _

theorem addPlayerState_get_new {m : List (String × PEntry)} {state : PObs}
    {r n : String} (hn : state.name = n)
    (he : mapGet m state.name = none) :
    mapGet (addPlayerState m state r) n
      = some ⟨state.name, state.type, state.context, [r], state.value,
          state.replicated⟩ := by
  unfold addPlayerState
  rw [he]
  show mapGet (mapSet m state.name _) n = _
  rw [hn]
  exact mapGet_mapSet_self _ _ _

/-- Type characterization of one merged entry of the player-state
aggregators (the merge loop is identical to the GlobalState one). -/
theorem aggFlatP_char (n : String) : ∀ flat : List (PObs × String),
    (flat.filter (fun p => p.1.name == n) = [] → mapGet (aggFlatP flat) n = none)
    ∧ (∀ q qs, flat.filter (fun p => p.1.name == n) = q :: qs →
        ∃ e, mapGet (aggFlatP flat) n = some e
          ∧ e.type = (qs.map (fun p => p.1.type)).foldl widen q.1.type) := by
  intro flat
  induction flat using List.reverseRecOn with
  | nil =>
    refine ⟨fun _ => rfl, fun q qs h => ?_⟩
    simp at h
  | append_singleton fs p ih =>
    have hstep : aggFlatP (fs ++ [p]) = addPlayerState (aggFlatP fs) p.1 p.2 := by
      unfold aggFlatP
      rw [List.foldl_append]
      rfl
    constructor
    · intro h
      rw [List.filter_append] at h
      obtain ⟨h1, h2⟩ := List.append_eq_nil.mp h
      have hnp : ¬ ((p.1.name == n) = true) := by
        intro hb
        simp [hb] at h2
      have hne : p.1.name ≠ n := fun he => hnp (by simp [he])
      rw [hstep, addPlayerState_get_ne hne]
      exact ih.1 h1
    · intro q qs h
      rw [List.filter_append] at h
      by_cases hp : (p.1.name == n) = true
      · have hpn : p.1.name = n := by simpa using hp
        have hfp : [p].filter (fun p => p.1.name == n) = [p] := by simp [hp]
        rw [hfp] at h
        cases hF : fs.filter (fun p => p.1.name == n) with
        | nil =>
          rw [hF, List.nil_append] at h
          injection h with hq hqs
          have hnone : mapGet (aggFlatP fs) p.1.name = none := by
            rw [hpn]
            exact ih.1 hF
          rw [hstep, addPlayerState_get_new hpn hnone]
          refine ⟨_, rfl, ?_⟩
          rw [← hq, ← hqs]
          rfl
        | cons q0 qs0 =>
          rw [hF, List.cons_append] at h
          injection h with hq hqs
          obtain ⟨e, he, hty⟩ := ih.2 q0 qs0 hF
          have he' : mapGet (aggFlatP fs) p.1.name = some e := by
            rw [hpn]
            exact he
          rw [hstep, addPlayerState_get_present hpn he']
          refine ⟨_, rfl, ?_⟩
          rw [pUpdate_type, ← hq, ← hqs, List.map_append, List.foldl_append]
          simp only [List.map_cons, List.map_nil, List.foldl_cons, List.foldl_nil]
          rw [hty]
      · have hp' : (p.1.name == n) = false := by
          cases hb : (p.1.name == n)
          · rfl
          · exact absurd hb hp
        have hfp : [p].filter (fun p => p.1.name == n) = [] := by simp [hp']
        rw [hfp, List.append_nil] at h
        have hne : p.1.name ≠ n := fun he => hp (by simp [he])
        rw [hstep, addPlayerState_get_ne hne]
        exact ih.2 q qs h

theorem obsOfGName_append (n : String) (a b : List (List GObs × String)) :
    obsOfGName n (a ++ b) = obsOfGName n a ++ obsOfGName n b := by
  simp [obsOfGName, List.filter_append]

theorem obsOfPName_append (n : String) (a b : List (List PObs × String)) :
    obsOfPName n (a ++ b) = obsOfPName n a ++ obsOfPName n b := by
  simp [obsOfPName, List.filter_append]

theorem obsOfGName_link (n : String) (calls : List (List GObs × String)) :
    obsOfGName n calls
      = ((flatGObs calls).filter (fun p => p.1.name == n)).map Prod.fst := by
  induction calls with
  | nil => rfl
  | cons c cs ih =>
    unfold obsOfGName flatGObs at *
    rw [List.map_cons, List.flatten_cons, List.filter_append,
      List.map_cons, List.flatten_cons, List.filter_append, List.map_append, ih]
    congr 1
    induction c.1 with
    | nil => rfl
    | cons o os iho =>
      rw [List.map_cons, List.filter_cons, List.filter_cons]
      by_cases ho : (o.name == n) = true
      · simp only [ho, if_pos, List.map_cons]
        rw [iho]
      · simp only [ho, if_neg, Bool.false_eq_true, if_false]
        exact iho

theorem obsOfPName_link (n : String) (calls : List (List PObs × String)) :
    obsOfPName n calls
      = ((flatPObs calls).filter (fun p => p.1.name == n)).map Prod.fst := by
  induction calls with
  | nil => rfl
  | cons c cs ih =>
    unfold obsOfPName flatPObs at *
    rw [List.map_cons, List.flatten_cons, List.filter_append,
      List.map_cons, List.flatten_cons, List.filter_append, List.map_append, ih]
    congr 1
    induction c.1 with
    | nil => rfl
    | cons o os iho =>
      rw [List.map_cons, List.filter_cons, List.filter_cons]
      by_cases ho : (o.name == n) = true
      · simp only [ho, if_pos, List.map_cons]
        rw [iho]
      · simp only [ho, if_neg, Bool.false_eq_true, if_false]
        exact iho

/-- Claim C2: Type widening is monotonic and one-directional: for every
sequence of `addGlobalStates` calls (and likewise `addPlayerStates` /
`addLocalPlayerStates`) containing two observations of the same name with
differing inferred types, the merged entry's type is the permissive fallback
`"any"` after those calls and stays `"any"` after any further calls,
however many mutually-agreeing observations they add. -/
theorem typeWidening_monotonic :
    (∀ (calls more : List (List GObs × String)) (n : String),
      (∃ o1 ∈ obsOfGName n calls, ∃ o2 ∈ obsOfGName n calls, o1.type ≠ o2.type) →
      ∃ e, mapGet (aggregateGlobalStates (calls ++ more)) n = some e
        ∧ e.type = "any")
    ∧ (∀ (calls more : List (List PObs × String)) (n : String),
      (∃ o1 ∈ obsOfPName n calls, ∃ o2 ∈ obsOfPName n calls, o1.type ≠ o2.type) →
      ∃ e, mapGet (aggregatePlayerStates (calls ++ more)) n = some e
        ∧ e.type = "any")
    ∧ (∀ (calls more : List (List PObs × String)) (n : String),
      (∃ o1 ∈ obsOfPName n calls, ∃ o2 ∈ obsOfPName n calls, o1.type ≠ o2.type) →
      ∃ e, mapGet (aggregateLocalPlayerStates (calls ++ more)) n = some e
        ∧ e.type = "any") := by
  have hG : ∀ (calls more : List (List GObs × String)) (n : String),
      (∃ o1 ∈ obsOfGName n calls, ∃ o2 ∈ obsOfGName n calls, o1.type ≠ o2.type) →
      ∃ e, mapGet (aggregateGlobalStates (calls ++ more)) n = some e
        ∧ e.type = "any" := by
    rintro calls more n ⟨o1, h1, o2, h2, hne⟩
    rw [aggregateGlobalStates_eq_flat]
    have hlink := obsOfGName_link n (calls ++ more)
    cases hF : (flatGObs (calls ++ more)).filter (fun p => p.1.name == n) with
    | nil =>
      exfalso
      have hmem : o1 ∈ obsOfGName n (calls ++ more) := by
        rw [obsOfGName_append]
        exact List.mem_append_left _ h1
      rw [hlink, hF] at hmem
      simp at hmem
    | cons q qs =>
      obtain ⟨e, he, hty, -⟩ :=
        (aggFlatG_char n (flatGObs (calls ++ more))).2 q qs hF
      refine ⟨e, he, ?_⟩
      rw [widen_foldl_eq] at hty
      by_cases hall : ∀ t ∈ qs.map (fun p => p.1.type), t = q.1.type
      · exfalso
        have hmem : ∀ o ∈ obsOfGName n calls, o.type = q.1.type := by
          intro o ho
          have ho2 : o ∈ ((q :: qs).map Prod.fst) := by
            rw [← hF, ← hlink, obsOfGName_append]
            exact List.mem_append_left _ ho
          obtain ⟨p, hpmem, hpo⟩ := List.mem_map.mp ho2
          rcases List.mem_cons.mp hpmem with hpq | hpqs
          · rw [← hpo, hpq]
          · rw [← hpo]
            exact hall _ (List.mem_map_of_mem _ hpqs)
        exact hne ((hmem o1 h1).trans (hmem o2 h2).symm)
      · rw [if_neg hall] at hty
        exact hty
  have hP : ∀ (calls more : List (List PObs × String)) (n : String),
      (∃ o1 ∈ obsOfPName n calls, ∃ o2 ∈ obsOfPName n calls, o1.type ≠ o2.type) →
      ∃ e, mapGet (aggregatePlayerStates (calls ++ more)) n = some e
        ∧ e.type = "any" := by
    rintro calls more n ⟨o1, h1, o2, h2, hne⟩
    rw [aggregatePlayerStates_eq_flat]
    have hlink := obsOfPName_link n (calls ++ more)
    cases hF : (flatPObs (calls ++ more)).filter (fun p => p.1.name == n) with
    | nil =>
      exfalso
      have hmem : o1 ∈ obsOfPName n (calls ++ more) := by
        rw [obsOfPName_append]
        exact List.mem_append_left _ h1
      rw [hlink, hF] at hmem
      simp at hmem
    | cons q qs =>
      obtain ⟨e, he, hty⟩ :=
        (aggFlatP_char n (flatPObs (calls ++ more))).2 q qs hF
      refine ⟨e, he, ?_⟩
      rw [widen_foldl_eq] at hty
      by_cases hall : ∀ t ∈ qs.map (fun p => p.1.type), t = q.1.type
      · exfalso
        have hmem : ∀ o ∈ obsOfPName n calls, o.type = q.1.type := by
          intro o ho
          have ho2 : o ∈ ((q :: qs).map Prod.fst) := by
            rw [← hF, ← hlink, obsOfPName_append]
            exact List.mem_append_left _ ho
          obtain ⟨p, hpmem, hpo⟩ := List.mem_map.mp ho2
          rcases List.mem_cons.mp hpmem with hpq | hpqs
          · rw [← hpo, hpq]
          · rw [← hpo]
            exact hall _ (List.mem_map_of_mem _ hpqs)
        exact hne ((hmem o1 h1).trans (hmem o2 h2).symm)
      · rw [if_neg hall] at hty
        exact hty
  exact ⟨hG, hP, fun calls more n h => hP calls more n h⟩

/-- Witness for C2: two disagreeing observations of `k` followed by a later
agreeing one, for each of the three aggregators. -/
theorem typeWidening_monotonic_witness :
    (∃ e, mapGet (aggregateGlobalStates
        ([([⟨"k", "string", "shared", "a.lua", "\"x\""⟩], "r1"),
          ([⟨"k", "number", "shared", "b.lua", "5"⟩], "r2")]
          ++ [([⟨"k", "string", "shared", "c.lua", "\"z\""⟩], "r3")])) "k"
        = some e ∧ e.type = "any")
    ∧ (∃ e, mapGet (aggregatePlayerStates
        ([([⟨"k", "string", "server", "a.lua", "\"x\"", false⟩], "r1"),
          ([⟨"k", "number", "server", "b.lua", "5", false⟩], "r2")]
          ++ [([⟨"k", "string", "server", "c.lua", "\"z\"", false⟩], "r3")])) "k"
        = some e ∧ e.type = "any")
    ∧ (∃ e, mapGet (aggregateLocalPlayerStates
        ([([⟨"k", "string", "client", "a.lua", "\"x\"", true⟩], "r1"),
          ([⟨"k", "number", "client", "b.lua", "5", false⟩], "r2")]
          ++ [([⟨"k", "string", "client", "c.lua", "\"z\"", false⟩], "r3")])) "k"
        = some e ∧ e.type = "any") :=
  ⟨typeWidening_monotonic.1 _ _ "k"
      ⟨⟨"k", "string", "shared", "a.lua", "\"x\""⟩, by decide,
        ⟨"k", "number", "shared", "b.lua", "5"⟩, by decide, by decide⟩,
    typeWidening_monotonic.2.1 _ _ "k"
      ⟨⟨"k", "string", "server", "a.lua", "\"x\"", false⟩, by decide,
        ⟨"k", "number", "server", "b.lua", "5", false⟩, by decide, by decide⟩,
    typeWidening_monotonic.2.2 _ _ "k"
      ⟨⟨"k", "string", "client", "a.lua", "\"x\"", true⟩, by decide,
        ⟨"k", "number", "client", "b.lua", "5", false⟩, by decide, by decide⟩⟩

theorem perm_flatten {α : Type} {l1 l2 : List (List α)} (h : l1.Perm l2) :
    l1.flatten.Perm l2.flatten := by
  induction h with
  | nil => rfl
  | cons x _ ih =>
    simp only [List.flatten_cons]
    exact ih.append_left x
  | swap x y l =>
    simp only [List.flatten_cons]
    rw [← List.append_assoc, ← List.append_assoc]
    exact (List.perm_append_comm).append_right _
  | trans _ _ ih1 ih2 => exact ih1.trans ih2

theorem widen_foldl_perm {t0 t0' : String} {ts ts' : List String}
    (h : (t0 :: ts).Perm (t0' :: ts')) :
    ts.foldl widen t0 = ts'.foldl widen t0' := by
  rw [widen_foldl_eq, widen_foldl_eq]
  by_cases hc : ∀ t ∈ ts, t = t0
  · have hall : ∀ t ∈ t0 :: ts, t = t0 := by
      intro t ht
      rcases List.mem_cons.mp ht with h1 | h1
      · exact h1
      · exact hc t h1
    have h0' : t0' = t0 := hall t0' (h.symm.subset (List.mem_cons_self _ _))
    have hc' : ∀ t ∈ ts', t = t0' := by
      intro t ht
      rw [h0']
      exact hall t (h.symm.subset (List.mem_cons_of_mem _ ht))
    rw [if_pos hc, if_pos hc', h0']
  · have hc' : ¬ ∀ t ∈ ts', t = t0' := by
      intro hall'
      apply hc
      have hall2 : ∀ t ∈ t0' :: ts', t = t0' := by
        intro t ht
        rcases List.mem_cons.mp ht with h1 | h1
        · exact h1
        · exact hall' t h1
      have h0 : t0 = t0' := hall2 t0 (h.subset (List.mem_cons_self _ _))
      intro t ht
      rw [h0]
      exact hall2 t (h.subset (List.mem_cons_of_mem _ ht))
    rw [if_neg hc, if_neg hc']

/-- Claim C3 (counterexample): The claim says *every* stored field of every
merged entry is identical under any permutation of the input file order; the
`value` field (and the order of `resources`) is taken from whichever file
arrives first, so swapping two files observing the same key with different
value texts changes the merged entry. -/
theorem aggregation_order_counterexample :
    mapGet (aggregateGlobalStates
        [([⟨"k", "string", "shared", "a.lua", "\"x\""⟩], "resA"),
         ([⟨"k", "string", "shared", "b.lua", "\"y\""⟩], "resB")]) "k"
      ≠ mapGet (aggregateGlobalStates
        [([⟨"k", "string", "shared", "b.lua", "\"y\""⟩], "resB"),
         ([⟨"k", "string", "shared", "a.lua", "\"x\""⟩], "resA")]) "k" := by
  decide

/-- Claim C3 (amended): Under any permutation of the input file order, the
merged snapshot agrees on which keys exist, on every merged `type`, and on
the membership of every owning-resource set; the fields captured from the
first observation (`value`, `context`) and the order of the `resources` list
may differ with the input order. -/
theorem aggregation_order_amended :
    ∀ (calls calls' : List (List GObs × String)), calls.Perm calls' →
      ∀ n : String,
        ((mapGet (aggregateGlobalStates calls) n = none)
          ↔ (mapGet (aggregateGlobalStates calls') n = none))
        ∧ (∀ e e', mapGet (aggregateGlobalStates calls) n = some e →
            mapGet (aggregateGlobalStates calls') n = some e' →
            e.type = e'.type ∧ (∀ r, r ∈ e.resources ↔ r ∈ e'.resources)) := by
  intro calls calls' hp n
  rw [aggregateGlobalStates_eq_flat, aggregateGlobalStates_eq_flat]
  have hfp : ((flatGObs calls).filter (fun p => p.1.name == n)).Perm
      ((flatGObs calls').filter (fun p => p.1.name == n)) := by
    unfold flatGObs
    exact (perm_flatten (hp.map _)).filter _
  cases hF : (flatGObs calls).filter (fun p => p.1.name == n) with
  | nil =>
    have hF' : (flatGObs calls').filter (fun p => p.1.name == n) = [] :=
      (hF ▸ hfp).symm.eq_nil
    have h1 := (aggFlatG_char n (flatGObs calls)).1 hF
    have h2 := (aggFlatG_char n (flatGObs calls')).1 hF'
    refine ⟨by rw [h1, h2], fun e e' he _ => ?_⟩
    rw [h1] at he
    exact absurd he (by simp)
  | cons q qs =>
    have hF2 : ∃ q' qs', (flatGObs calls').filter (fun p => p.1.name == n)
        = q' :: qs' := by
      cases hFc : (flatGObs calls').filter (fun p => p.1.name == n) with
      | nil =>
        exact absurd (hFc ▸ hF ▸ hfp) (by simp)
      | cons q' qs' => exact ⟨q', qs', rfl⟩
    obtain ⟨q', qs', hF'⟩ := hF2
    obtain ⟨e0, he0, hty0, hres0⟩ := (aggFlatG_char n (flatGObs calls)).2 q qs hF
    obtain ⟨e0', he0', hty0', hres0'⟩ :=
      (aggFlatG_char n (flatGObs calls')).2 q' qs' hF'
    have hpqq : ((q :: qs).map (fun p => p.1.type)).Perm
        ((q' :: qs').map (fun p => p.1.type)) := by
      rw [← hF, ← hF']
      exact hfp.map _
    have hpsnd : ((q :: qs).map Prod.snd).Perm ((q' :: qs').map Prod.snd) := by
      rw [← hF, ← hF']
      exact hfp.map _
    refine ⟨by rw [he0, he0']; simp, fun e e' he he' => ?_⟩
    rw [he0] at he
    rw [he0'] at he'
    cases Option.some_inj.mp he
    cases Option.some_inj.mp he'
    constructor
    · rw [hty0, hty0']
      exact widen_foldl_perm (by simpa using hpqq)
    · intro r
      rw [hres0 r, hres0' r]
      exact hpsnd.mem_iff

/-- Witness for C3 (amended): the swap of two files observing `k`; type and
resource-set membership coincide across the two orders. -/
theorem aggregation_order_amended_witness :
    ∃ e e', mapGet (aggregateGlobalStates
        [([⟨"k", "string", "shared", "a.lua", "\"x\""⟩], "resA"),
         ([⟨"k", "string", "shared", "b.lua", "\"y\""⟩], "resB")]) "k" = some e
      ∧ mapGet (aggregateGlobalStates
        [([⟨"k", "string", "shared", "b.lua", "\"y\""⟩], "resB"),
         ([⟨"k", "string", "shared", "a.lua", "\"x\""⟩], "resA")]) "k" = some e'
      ∧ e.type = e'.type ∧ (∀ r, r ∈ e.resources ↔ r ∈ e'.resources) := by
  refine ⟨⟨"k", "string", "shared", ["resA", "resB"], "\"x\""⟩,
    ⟨"k", "string", "shared", ["resB", "resA"], "\"y\""⟩, by decide, by decide, ?_⟩
  exact (aggregation_order_amended
      [([⟨"k", "string", "shared", "a.lua", "\"x\""⟩], "resA"),
       ([⟨"k", "string", "shared", "b.lua", "\"y\""⟩], "resB")]
      [([⟨"k", "string", "shared", "b.lua", "\"y\""⟩], "resB"),
       ([⟨"k", "string", "shared", "a.lua", "\"x\""⟩], "resA")]
      (List.Perm.swap _ _ _) "k").2 _ _ (by decide) (by decide)

/-- Witness for C1 (amended): both sides observed, the client side
replicated, resolving to bidirectional. -/
theorem stateBag_replication_amended_witness :
    (mapGet (mergeStateBags
        [("k", ⟨"k", "boolean", "server", ["resA"], "true", false⟩)]
        [("k", ⟨"k", "boolean", "client", ["resB"], "true", true⟩)]) "k").map
      MEntry.replication = some "bidirectional" := by
  exact (stateBag_replication_amended
      [("k", ⟨"k", "boolean", "server", ["resA"], "true", false⟩)]
      [("k", ⟨"k", "boolean", "client", ["resB"], "true", true⟩)] "k"
      (by decide)).2.2
    ⟨"k", "boolean", "server", ["resA"], "true", false⟩
    ⟨"k", "boolean", "client", ["resB"], "true", true⟩
    (by decide) (by decide)
